import Mathlib

/-! Shallow embedding of the mimchine container tool (Python) in Lean 4.

The Python string operations used by the source (str.split on a one-character
separator, str.strip, str.split(sep, 1), str.lstrip, str.replace of a single
character) are modelled at the character-list level so that every definition
is executable and kernel-reducible. -/

/-- Model of Python str.split(sep) for a one-character separator. -/
def splitOnChar (sep : Char) : List Char → List (List Char)
  | [] => [[]]
  | c :: cs =>
    if c = sep then [] :: splitOnChar sep cs
    else
      match splitOnChar sep cs with
      | [] => [[c]]
      | h :: t => (c :: h) :: t

/-- Model of Python str.split(sep, 1): split at the first occurrence of the
separator, returning none when the separator does not occur. -/
def splitFirstOn (sep : Char) : List Char → Option (List Char × List Char)
  | [] => none
  | c :: cs =>
    if c = sep then some ([], cs)
    else
      match splitFirstOn sep cs with
      | none => none
      | some kv => some (c :: kv.1, kv.2)

/-- Model of Python str.strip(): drop whitespace from both ends. -/
def trimC (l : List Char) : List Char :=
  ((l.dropWhile Char.isWhitespace).reverse.dropWhile Char.isWhitespace).reverse

/-- Model of Python sep.join(parts) for a one-character separator. -/
def joinChar (sep : Char) : List (List Char) → List Char
  | [] => []
  | [l] => l
  | l :: ls => l ++ sep :: joinChar sep ls

/-- Python str.strip() lifted to Lean strings. -/
def pyStrip (s : String) : String := ⟨trimC s.data⟩

/-- Python s.split(sep) lifted to Lean strings, one-character separator. -/
def pySplitChar (sep : Char) (s : String) : List String :=
  (splitOnChar sep s.data).map (fun l => ⟨l⟩)

/-- Python s.startswith(p) (used only with one-piece plain prefixes). -/
def strHasPre (pre s : String) : Bool := pre.data.isPrefixOf s.data

/-- Python s.endswith("/") as used by posixpath.join. -/
def strEndsSlash (s : String) : Bool := s.data.getLast? == some '/'

/-- Python s.lower() restricted to ASCII, as used on runtime names. -/
def pyLower (s : String) : String := ⟨s.data.map Char.toLower⟩

/-- Python s.replace(a, b) for one-character patterns. -/
def replaceChar (s : String) (a b : Char) : String :=
  ⟨s.data.map (fun c => if c = a then b else c)⟩

/-- Python sep.join(parts) lifted to Lean strings. -/
def joinStr (sep : Char) (parts : List String) : String :=
  ⟨joinChar sep (parts.map (fun p => p.data))⟩

/-- Python dict lookup (dict.get) on an association list built by repeated
assignment: the last binding of a key wins. -/
def dictGet (l : List (String × String)) (k : String) : Option String :=
  (l.reverse.find? (fun p => p.1 == k)).map (fun p => p.2)

/-- Python output post-processing used by the shell helpers: strip the whole
output, split into lines, strip each line, drop empty lines, take the last
remaining line. -/
def lastNonemptyLine (s : String) : Option String :=
  ((((splitOnChar '\n' (trimC s.data)).map trimC).filter
      (fun l => !l.isEmpty)).getLast?).map (fun l => (⟨l⟩ : String))

/-! Model of src/mimchine/integration.py constants. -/

/-- CONTAINER_HOME_DIR from integration.py. -/
def CONTAINER_HOME_DIR : String := "/root"

/-! Model of src/mimchine/shell_helpers.py: home resolution (claim C1). -/

/-- Abstract view of one live container as observed by the shell helpers:
its inspect environment (Config.Env parsed into key/value pairs) and the raw
output of the `$HOME` probe (none models a nonzero exit of the probe exec). -/
structure ShellContainer where
  env : List (String × String)
  probeOutput : Option String

/-- probe_container_default_home from shell_helpers.py: the probe output is
stripped on success, and a failed exec yields the empty string. -/
def probe_container_default_home (c : ShellContainer) : String :=
  match c.probeOutput with
  | some s => pyStrip s
  | none => ""

/-- Error raised by get_shell_home_dir when no non-root home is available. -/
inductive ShellHomeError where
  | noNonRootHome
deriving DecidableEq

/-- get_shell_home_dir from shell_helpers.py. -/
def get_shell_home_dir (c : ShellContainer) (as_root : Bool) :
    Except ShellHomeError String :=
  if as_root then .ok CONTAINER_HOME_DIR
  else
    let container_host_home := pyStrip ((dictGet c.env "HOST_HOME").getD "")
    if container_host_home ≠ "" then .ok container_host_home
    else
      let container_home := pyStrip ((dictGet c.env "HOME").getD "")
      if container_home ≠ "" then .ok container_home
      else
        let default_home := probe_container_default_home c
        if default_home ≠ "" then .ok default_home
        else .error .noNonRootHome

/-! Model of src/mimchine/shell_helpers.py: non-root home validation and
writability probing (claim C2). -/

/-- Container commands that resolve_non_root_shell_home can issue, in order. -/
inductive ShellCmdEvent where
  | ensureHomeExec
  | homeProbeExec
deriving DecidableEq

/-- Distinguishable failure messages of resolve_non_root_shell_home (the
source raises ValueError with distinct messages for each). -/
inductive ShellHomeFailure where
  | invalidShellHome
  | homePrepFailed
  | shellHomeNotWritable
  | probeReturnedNoPath
deriving DecidableEq

/-- Abstract outcomes of the container commands that
resolve_non_root_shell_home issues: whether the privileged docker
mkdir/chown exec succeeds, and the output of the writability probe (none
models a nonzero exit). -/
structure ShellProbeWorld where
  ensureHomeOk : Bool
  probeOutput : Option String

/-- resolve_non_root_shell_home from shell_helpers.py, returning its result
together with the ordered list of container commands it issued. -/
def resolve_non_root_shell_home (w : ShellProbeWorld)
    (runtime shell_home_dir : String) :
    Except ShellHomeFailure String × List ShellCmdEvent :=
  if (pyStrip shell_home_dir).length = 0 then (.error .invalidShellHome, [])
  else if ¬ strHasPre "/" shell_home_dir then (.error .invalidShellHome, [])
  else if shell_home_dir = "/" ∨ shell_home_dir = "/root" then
    (.error .invalidShellHome, [])
  else if runtime = "docker" ∧ ¬ w.ensureHomeOk then
    (.error .homePrepFailed, [.ensureHomeExec])
  else
    let pre : List ShellCmdEvent :=
      if runtime = "docker" then [.ensureHomeExec] else []
    match w.probeOutput with
    | none => (.error .shellHomeNotWritable, pre ++ [.homeProbeExec])
    | some out =>
      match lastNonemptyLine out with
      | none => (.error .probeReturnedNoPath, pre ++ [.homeProbeExec])
      | some h => (.ok h, pre ++ [.homeProbeExec])

/-! Model of src/mimchine/containers.py: label and name parsing, container
lookup, and the public predicates (claims C5 and C10). -/

/-- Shape of the Labels field of a container record: podman reports a JSON
mapping, docker reports a single comma-joined string, and the field may be
absent or null. -/
inductive LabelsValue where
  | mapping (m : List (String × String))
  | str (s : String)
  | nullv

/-- Body of the docker-format label parsing loop in _parse_container_labels:
split on commas, keep pieces containing an equals sign, split each piece at
its first equals sign, and strip both halves. -/
def parsePairsList : List (List Char) → List (List Char × List Char)
  | [] => []
  | pair :: rest =>
    match splitFirstOn '=' pair with
    | none => parsePairsList rest
    | some kv => (trimC kv.1, trimC kv.2) :: parsePairsList rest

/-- Docker-format label parsing (the string branch of
_parse_container_labels), at the character level. -/
def parseLabelPairs (s : List Char) : List (List Char × List Char) :=
  if trimC s = [] then [] else parsePairsList (splitOnChar ',' s)

/-- _parse_container_labels from containers.py. -/
def _parse_container_labels : LabelsValue → List (String × String)
  | .mapping m => m
  | .str s =>
    (parseLabelPairs s.data).map (fun p => ((⟨p.1⟩ : String), (⟨p.2⟩ : String)))
  | .nullv => []

/-- Shape of the Names field of a container record: a list of names, a
comma-joined string, or anything else. -/
inductive NamesValue where
  | list (ns : List String)
  | str (s : String)
  | other

/-- Python name.lstrip("/"): drop every leading slash. -/
def lstripSlash (s : String) : String :=
  ⟨s.data.dropWhile (fun c => c == '/')⟩

/-- _parse_container_names from containers.py. -/
def _parse_container_names : NamesValue → List String
  | .list ns => (ns.filter (fun n => !(pyStrip n).isEmpty)).map lstripSlash
  | .str s =>
    ((pySplitChar ',' s).filter (fun n => !(pyStrip n).isEmpty)).map
      (fun n => lstripSlash (pyStrip n))
  | .other => []

/-- One container record as listed by the runtime, keeping the fields the
predicates read. -/
structure Container where
  names : NamesValue
  state : Option String
  labels : LabelsValue

/-- _get_container_by_name from containers.py: first listed container whose
parsed name list contains the requested name. -/
def _get_container_by_name (containers : List Container)
    (container_name : String) : Option Container :=
  containers.find? (fun c => decide (container_name ∈ _parse_container_names c.names))

/-- container_exists from containers.py. -/
def container_exists (containers : List Container) (container_name : String) : Bool :=
  (_get_container_by_name containers container_name).isSome

/-- container_is_running from containers.py. -/
def container_is_running (containers : List Container) (container_name : String) : Bool :=
  match _get_container_by_name containers container_name with
  | none => false
  | some c => c.state == some "running"

/-- container_is_mim from containers.py. -/
def container_is_mim (containers : List Container) (container_name : String) : Bool :=
  match _get_container_by_name containers container_name with
  | none => false
  | some c => dictGet (_parse_container_labels c.labels) "mim" == some "1"

/-! Model of src/mimchine/containers.py: parse_container_json (claim C8). -/

/-- Shape of a parsed JSON document, as far as the source inspects it (it
only ever asks whether the parse result is a list). -/
inductive JValue where
  | arr (elems : List JValue)
  | obj (fields : List (String × JValue))
  | str (s : String)
  | num (n : Int)
  | boolv (b : Bool)
  | nullv

/-- Per-line fallback loop of parse_container_json: skip blank lines, parse
every other line, propagate a parse failure. -/
def parseJsonLines (loads : String → Option JValue) :
    List (List Char) → Except Unit (List JValue)
  | [] => .ok []
  | l :: ls =>
    if trimC l = [] then parseJsonLines loads ls
    else
      match loads (⟨l⟩ : String) with
      | none => .error ()
      | some v => (parseJsonLines loads ls).map (fun rest => v :: rest)

/-- parse_container_json from containers.py, parameterized by the JSON
parser (json.loads, with none modelling a JSONDecodeError). -/
def parse_container_json (loads : String → Option JValue)
    (json_output : String) : Except Unit (List JValue) :=
  if trimC json_output.data = [] then .ok []
  else
    match loads json_output with
    | some (.arr l) => .ok l
    | some v => .ok [v]
    | none => parseJsonLines loads (splitOnChar '\n' (trimC json_output.data))

/-! Model of src/mimchine/config.py: runtime selection (claim C9). -/

/-- SUPPORTED_CONTAINER_RUNTIMES from config.py. -/
def SUPPORTED_CONTAINER_RUNTIMES : List String := ["podman", "docker"]

/-- _normalize_runtime from config.py. -/
def _normalize_runtime (runtime : String) : String := pyLower (pyStrip runtime)

/-- _normalize_and_validate_runtime from config.py (the error constructor
models the ValueError it raises). -/
def _normalize_and_validate_runtime (runtime : String) : Except Unit String :=
  let normalized_runtime := _normalize_runtime runtime
  if normalized_runtime ∈ SUPPORTED_CONTAINER_RUNTIMES then .ok normalized_runtime
  else .error ()

/-- set_container_runtime_override from config.py. -/
def set_container_runtime_override :
    Option String → Except Unit (Option String)
  | none => .ok none
  | some r => (_normalize_and_validate_runtime r).map some

/-- get_container_runtime from config.py. The configured value is the
string found under container.runtime in the loaded TOML (none when the
config file or the key is absent, in which case the source supplies the
default "podman" through dict.get). -/
def get_container_runtime (override configured : Option String) : String :=
  match override with
  | some r => r
  | none =>
    let runtime := configured.getD "podman"
    match _normalize_and_validate_runtime runtime with
    | .ok n => n
    | .error _ => "podman"

/-! Path mapper (claim C4). The function map_host_path_to_container is
imported by src/mimchine/cli.py from the integration module, but its
definition is absent from the source tree; only its caller is present. -/

/-- Components of a canonical absolute path (empty pieces dropped). -/
def pathComponents (p : String) : List String :=
  (pySplitChar '/' p).filter (fun c => !c.isEmpty)

/-- Model of posixpath.join(a, b) for a single trailing part. -/
def posixJoin (a b : String) : String :=
  if strHasPre "/" b then b
  else if a.isEmpty || strEndsSlash a then a ++ b
  else a ++ "/" ++ b

/-- Modelled from the spec: the selection step of map_host_path_to_container,
"select the one with the longest source path (most specific)" among the
matching mounts (the function itself is missing from the source tree). -/
def bestMount : List (String × String) → Option (String × String)
  | [] => none
  | m :: ms =>
    match bestMount ms with
    | none => some m
    | some b =>
      if (pathComponents b.1).length < (pathComponents m.1).length then some m
      else some b

/-- Modelled from the spec: map_host_path_to_container is imported by the CLI
but missing from the source tree. Following the spec's words: among all
mounts whose source is a path-component-wise prefix of the canonical host
path, select the one with the longest source; none matching yields none; an
exact match returns the destination verbatim; otherwise the relative
remainder (backslashes translated) is posix-joined onto the destination.
The host path is taken already canonicalized. -/
def map_host_path_to_container (host_path : String)
    (mounts : List (String × String)) : Option String :=
  let hostComps := pathComponents host_path
  match bestMount (mounts.filter
      (fun m => (pathComponents m.1).isPrefixOf hostComps)) with
  | none => none
  | some sd =>
    let srcComps := pathComponents sd.1
    if srcComps = hostComps then some sd.2
    else
      let remainder := joinStr '/' (hostComps.drop srcComps.length)
      some (posixJoin sd.2 (replaceChar remainder '\\' '/'))

/-! Model of src/mimchine/cli.py: home-share mount planning (claim C6). -/

/-- Components as collected by os.path.commonpath: split on the separator,
dropping empty pieces and current-directory pieces. -/
def pyCommonParts (p : String) : List String :=
  (pySplitChar '/' p).filter (fun c => !(c == "") && !(c == "."))

/-- Longest common leading run of two component lists. -/
def commonLead : List String → List String → List String
  | x :: xs, y :: ys => if x = y then x :: commonLead xs ys else []
  | _, _ => []

/-- Model of os.path.commonpath([a, b]) for two absolute posix paths. -/
def commonpath2 (a b : String) : String :=
  let pre := if strHasPre "/" a then "/" else ""
  pre ++ joinStr '/' (commonLead (pyCommonParts a) (pyCommonParts b))

/-- Components as collected by posixpath.relpath (empty pieces dropped).
The source only calls relpath on outputs of normalize_host_path, which are
canonical absolute paths, so abspath is modelled as the identity. -/
def pyRelParts (p : String) : List String :=
  (pySplitChar '/' p).filter (fun c => !(c == ""))

/-- Model of os.path.relpath(path, start) on canonical absolute paths. -/
def relpath (path start : String) : String :=
  let pl := pyRelParts path
  let sl := pyRelParts start
  let i := (commonLead pl sl).length
  let rel := List.replicate (sl.length - i) ".." ++ pl.drop i
  if rel = [] then "." else joinStr '/' rel

/-- Host-side context of _get_home_share_mount_pairs: the canonicalization
function normalize_host_path (realpath of abspath of expanduser), the
existence predicate, the canonicalized user home directory, and the image
home directory (resolve_image_home is imported by the CLI but missing from
the source tree, so its result is kept abstract). -/
structure HomeShareCtx where
  normalize : String → String
  pathExists : String → Bool
  userHome : String
  imageHome : String

/-- Accumulated mount planning state: the ordered result list and the
already-mounted set (mounted_pairs in the source). -/
structure MountPlan where
  pairs : List (String × String)
  seen : List (String × String)
deriving DecidableEq

/-- Append a pair unless it was already mounted (lookup-before-append on
mounted_pairs). -/
def addPair (st : MountPlan) (p : String × String) : MountPlan :=
  if p ∈ st.seen then st else ⟨st.pairs ++ [p], st.seen ++ [p]⟩

/-- Loop body of _get_home_share_mount_pairs for one requested share. -/
def homeShareStep (ctx : HomeShareCtx) (st : MountPlan)
    (home_share_input : String) : MountPlan :=
  let home_share_src_abs := ctx.normalize home_share_input
  if ¬ ctx.pathExists home_share_src_abs then st
  else if commonpath2 home_share_src_abs ctx.userHome ≠ ctx.userHome then st
  else
    let st1 := addPair st (home_share_src_abs, home_share_src_abs)
    let home_share_src_rel := relpath home_share_src_abs ctx.userHome
    let home_share_tilde_target :=
      if home_share_src_rel = "." then ctx.imageHome
      else posixJoin ctx.imageHome (replaceChar home_share_src_rel '\\' '/')
    if home_share_tilde_target ≠ home_share_src_abs then
      addPair st1 (home_share_src_abs, home_share_tilde_target)
    else st1

/-- _get_home_share_mount_pairs from cli.py. -/
def _get_home_share_mount_pairs (ctx : HomeShareCtx)
    (home_shares : List String) : List (String × String) :=
  if home_shares = [] then []
  else (home_shares.foldl (homeShareStep ctx) ⟨[], []⟩).pairs

/-! Model of src/mimchine/shell_helpers.py: docker identity reconciliation
(claim C3). The embedded shell script of _build_docker_identity_script is
modelled by its effect on parsed /etc/group and /etc/passwd contents. -/

/-- One /etc/group line: name and numeric gid (the fields the script reads
and writes). -/
structure GroupEntry where
  name : String
  gid : Nat
deriving DecidableEq

/-- One /etc/passwd line: the fields the script reads and writes. -/
structure PasswdEntry where
  name : String
  uid : Nat
  gid : Nat
  home : String
  shell : String
deriving DecidableEq

/-- Container state the identity script reads and mutates: the parsed
identity databases plus the locations of zsh and bash (none when
command -v fails). -/
structure EtcState where
  groups : List GroupEntry
  passwd : List PasswdEntry
  zshPath : Option String
  bashPath : Option String
deriving DecidableEq

/-- Effect of awk printing the first group name with the given gid: the
empty string when no line matches. -/
def awkFirstNameByGid (gs : List GroupEntry) (gid : Nat) : String :=
  match gs.find? (fun e => e.gid == gid) with
  | some e => e.name
  | none => ""

/-- Effect of the awk found-flag scan over /etc/group names. -/
def awkGroupNameExists (gs : List GroupEntry) (name : String) : Bool :=
  gs.any (fun e => e.name == name)

/-- Effect of awk printing the first passwd name with the given uid. -/
def awkFirstNameByUid (ps : List PasswdEntry) (uid : Nat) : String :=
  match ps.find? (fun e => e.uid == uid) with
  | some e => e.name
  | none => ""

/-- Effect of the awk found-flag scan over /etc/passwd names. -/
def awkUserNameExists (ps : List PasswdEntry) (name : String) : Bool :=
  ps.any (fun e => e.name == name)

/-- login-shell selection of the script: zsh, then bash, then /bin/sh. -/
def scriptShellPath (st : EtcState) : String :=
  match st.zshPath with
  | some p => p
  | none =>
    match st.bashPath with
    | some p => p
    | none => "/bin/sh"

/-- Group phase of the script built by _build_docker_identity_script:
lookup of the gid, fallback rename when the desired group name collides
with an existing entry, then append. -/
def scriptGroupPhase (st : EtcState) (gid : Nat)
    (group fallback_group : String) : EtcState :=
  let group_for_gid := awkFirstNameByGid st.groups gid
  if group_for_gid = "" then
    let g := if awkGroupNameExists st.groups group then fallback_group else group
    { st with groups := st.groups ++ [⟨g, gid⟩] }
  else st

/-- Passwd phase of the script: lookup of the uid, fallback rename on name
collision, login-shell selection, then append. -/
def scriptPasswdPhase (st : EtcState) (uid gid : Nat)
    (user fallback_user home : String) : EtcState :=
  let user_for_uid := awkFirstNameByUid st.passwd uid
  if user_for_uid = "" then
    let u := if awkUserNameExists st.passwd user then fallback_user else user
    { st with passwd := st.passwd ++ [⟨u, uid, gid, home, scriptShellPath st⟩] }
  else st

/-- Execution of the script built by _build_docker_identity_script: the
group phase, the passwd phase, then the final awk echo of the name
resolved for the uid. Returns the mutated state and the script's stdout. -/
def runDockerIdentityScript (st : EtcState) (uid gid : Nat)
    (user group fallback_user fallback_group home : String) :
    EtcState × String :=
  let st1 := scriptGroupPhase st gid group fallback_group
  let st2 := scriptPasswdPhase st1 uid gid user fallback_user home
  (st2, awkFirstNameByUid st2.passwd uid)

/-- Host identity: uid, gid, and the sanitized user and group names, as
produced by get_host_identity. -/
structure HostIdentity where
  uid : Nat
  gid : Nat
  username : String
  groupname : String

/-- The regular expression used by _sanitize_identity_name, as a predicate:
a leading letter or underscore followed by letters, digits, underscores or
hyphens. -/
def identityNamePattern (s : String) : Bool :=
  match s.data with
  | [] => false
  | c :: cs => (c.isAlpha || c == '_') && cs.all (fun d => d.isAlpha || d.isDigit || d == '_' || d == '-')

/-- _sanitize_identity_name from shell_helpers.py. -/
def _sanitize_identity_name (name fallback : String) : String :=
  if identityNamePattern name then name else fallback

/-- get_host_identity from shell_helpers.py, with the OS lookups (uid, gid,
pwd/grp database names, USER/GROUP environment entries) as inputs. -/
def get_host_identity (uid gid : Nat) (pwName grName envUser envGroup : Option String) :
    HostIdentity :=
  let fallback_username := envUser.getD ("mimuser" ++ toString uid)
  let fallback_groupname := envGroup.getD ("mimgroup" ++ toString gid)
  let username := pwName.getD fallback_username
  let groupname := grName.getD fallback_groupname
  ⟨uid, gid,
    _sanitize_identity_name username ("mimuser" ++ toString uid),
    _sanitize_identity_name groupname ("mimgroup" ++ toString gid)⟩

/-- ensure_docker_non_root_identity from shell_helpers.py, on the success
path of the privileged exec: run the identity script and post-process its
output into the resolved username (none when no non-blank line remains). -/
def ensure_docker_non_root_identity (st : EtcState) (identity : HostIdentity)
    (shell_home_dir : String) : EtcState × Option String :=
  let fallback_user := "mimuser" ++ toString identity.uid
  let fallback_group := "mimgroup" ++ toString identity.gid
  let r := runDockerIdentityScript st identity.uid identity.gid
    identity.username identity.groupname fallback_user fallback_group shell_home_dir
  (r.1, lastNonemptyLine r.2)

/-! Model of src/mimchine/cli.py: the destroy, shell, start and stop
commands as event traces (claim C7). Read-only runtime queries (ps,
inspect, and no-op probe execs) and mutating actions (start/stop/rm,
privileged execs, interactive exec, data-directory removal) are recorded
in order. -/

/-- One observable action of a CLI command. -/
inductive CliEvent where
  | psQuery
  | inspectQuery (name : String)
  | probeExec (name : String)
  | startRun (name : String)
  | stopRun (name : String)
  | rmRun (name : String)
  | rmTreeFs (name : String)
  | ensureHomeRun (name : String)
  | identityRun (name : String)
  | execRun (name : String)
deriving DecidableEq

/-- Whether an event mutates runtime or filesystem state. ps and inspect
are pure queries; the probe exec only echoes from inside the container. -/
def cliEventIsMutation : CliEvent → Bool
  | .psQuery => false
  | .inspectQuery _ => false
  | .probeExec _ => false
  | _ => true

/-- Modelled from the spec: SHELL_USER_ROOT is imported by the CLI from the
container inventory module, but the source tree does not define it; the
spec does not describe it beyond root-versus-non-root selection. -/
def SHELL_USER_ROOT : String := "root"

/-- World the CLI commands run against: the container inventory, the
inventory as re-listed after a start attempt, and the abstract outcomes of
every runtime action the shell path can take. -/
structure CliWorld where
  containers : List Container
  containersAfterStart : List Container
  stopOk : Bool
  startOk : Bool
  rmOk : Bool
  execOk : Bool
  runtime : String
  shellContainer : ShellContainer
  probeWorld : ShellProbeWorld
  hasZsh : Bool
  shellUserLabel : Option String

/-- _resolve_shell_as_root from cli.py (resolve_container_shell_user is
imported by the CLI but missing from the source tree; it is modelled as a
pure lookup of a per-container shell-user setting). -/
def _resolve_shell_as_root (w : CliWorld) (as_root as_user : Bool) :
    Except Unit Bool :=
  if as_root ∧ as_user then .error ()
  else if as_root then .ok true
  else if as_user then .ok false
  else .ok (w.shellUserLabel == some SHELL_USER_ROOT)

/-- is_zsh_command from shell_helpers.py (os.path.basename is the final
slash-separated piece). -/
def is_zsh_command (command_args : List String) : Bool :=
  match command_args with
  | [] => false
  | a :: _ => ((pySplitChar '/' a).getLastD "") == "zsh"

/-- Tail of the destroy command after all its checks passed: remove the
data directory, then remove the container. -/
def finishDestroy (w : CliWorld) (container_name : String)
    (tr : List CliEvent) : Nat × List CliEvent :=
  let tr2 := tr ++ [.rmTreeFs container_name, .rmRun container_name]
  if w.rmOk then (0, tr2) else (1, tr2)

/-- destroy from cli.py: existence and mim-label guard, running check,
optional forced stop, then data-directory and container removal. -/
def destroy (w : CliWorld) (container_name : String) (force : Bool) :
    Nat × List CliEvent :=
  if ¬ container_exists w.containers container_name then (1, [.psQuery])
  else if ¬ container_is_mim w.containers container_name then
    (1, [.psQuery, .psQuery])
  else if container_is_running w.containers container_name then
    if force then
      let tr := [.psQuery, .psQuery, .psQuery, .stopRun container_name]
      if w.stopOk then finishDestroy w container_name tr else (1, tr)
    else (1, [.psQuery, .psQuery, .psQuery])
  else finishDestroy w container_name [.psQuery, .psQuery, .psQuery]

/-- start from cli.py. -/
def start (w : CliWorld) (container_name : String) : Nat × List CliEvent :=
  if ¬ container_exists w.containers container_name then (1, [.psQuery])
  else if ¬ container_is_mim w.containers container_name then
    (1, [.psQuery, .psQuery])
  else if container_is_running w.containers container_name then
    (0, [.psQuery, .psQuery, .psQuery])
  else
    let tr := [.psQuery, .psQuery, .psQuery, .startRun container_name]
    if w.startOk then (0, tr) else (1, tr)

/-- stop from cli.py. -/
def stop (w : CliWorld) (container_name : String) (timeout : Nat) :
    Nat × List CliEvent :=
  if ¬ container_exists w.containers container_name then (1, [.psQuery])
  else if ¬ container_is_mim w.containers container_name then
    (1, [.psQuery, .psQuery])
  else if ¬ container_is_running w.containers container_name then
    (0, [.psQuery, .psQuery, .psQuery])
  else
    let tr := [.psQuery, .psQuery, .psQuery, .stopRun container_name]
    let _ := timeout
    if w.stopOk then (0, tr) else (1, tr)

/-- Queries issued by get_shell_home_dir: it reads the container
environment through inspect, and falls through to the `$HOME` probe exec
only when neither HOST_HOME nor HOME is non-blank. -/
def getShellHomeEvents (c : ShellContainer) (container_name : String)
    (as_root : Bool) : List CliEvent :=
  if as_root then []
  else if pyStrip ((dictGet c.env "HOST_HOME").getD "") ≠ "" then
    [.inspectQuery container_name]
  else if pyStrip ((dictGet c.env "HOME").getD "") ≠ "" then
    [.inspectQuery container_name]
  else [.inspectQuery container_name, .probeExec container_name]

/-- Rendering of the commands of resolve_non_root_shell_home as CLI
events. -/
def cliOfShellCmd (container_name : String) : ShellCmdEvent → CliEvent
  | .ensureHomeExec => .ensureHomeRun container_name
  | .homeProbeExec => .probeExec container_name

/-- Tail of the shell command once the container is confirmed running:
mount inspection, root-mode resolution, home resolution, the non-root
preparation pipeline of prepare_non_root_shell, and the final interactive
exec. Environment-variable assembly is pure and leaves no events beyond
the inspect issued by get_non_root_zsh_env. -/
def shellAfterRunning (w : CliWorld) (container_name : String)
    (shell_command_args : List String) (as_root as_user : Bool)
    (tr : List CliEvent) : Nat × List CliEvent :=
  let tr2 := tr ++ [.inspectQuery container_name]
  match _resolve_shell_as_root w as_root as_user with
  | .error _ => (1, tr2)
  | .ok shell_as_root =>
    let tr3 := tr2 ++ getShellHomeEvents w.shellContainer container_name shell_as_root
    match get_shell_home_dir w.shellContainer shell_as_root with
    | .error _ => (1, tr3)
    | .ok shell_home_dir =>
      if shell_command_args = [] then (1, tr3)
      else if shell_as_root then
        let tr4 := tr3 ++ [.execRun container_name]
        if w.execOk then (0, tr4) else (1, tr4)
      else
        let r := resolve_non_root_shell_home w.probeWorld w.runtime shell_home_dir
        let tr4 := tr3 ++ r.2.map (cliOfShellCmd container_name)
        match r.1 with
        | .error _ => (1, tr4)
        | .ok _ =>
          let zsh := is_zsh_command shell_command_args
          let tr5 := tr4 ++ (if zsh then [.probeExec container_name] else [])
          if zsh ∧ ¬ w.hasZsh then (1, tr5)
          else
            let tr6 := tr5 ++ (if zsh then [.inspectQuery container_name] else [])
            let tr7 := tr6 ++
              (if w.runtime = "docker" then [.identityRun container_name] else [])
            let tr8 := tr7 ++ [.execRun container_name]
            if w.execOk then (0, tr8) else (1, tr8)

/-- shell from cli.py: existence and mim-label guard, auto-start of a
stopped container, a second running check, then the shell pipeline. -/
def shell (w : CliWorld) (container_name : String)
    (shell_command_args : List String) (as_root as_user : Bool) :
    Nat × List CliEvent :=
  if ¬ container_exists w.containers container_name then (1, [.psQuery])
  else if ¬ container_is_mim w.containers container_name then
    (1, [.psQuery, .psQuery])
  else if ¬ container_is_running w.containers container_name then
    let tr := [.psQuery, .psQuery, .psQuery, .startRun container_name]
    if ¬ w.startOk then (1, tr)
    else
      let tr1 := tr ++ [.psQuery]
      if ¬ container_is_running w.containersAfterStart container_name then (1, tr1)
      else shellAfterRunning w container_name shell_command_args as_root as_user tr1
  else
    let tr1 := [.psQuery, .psQuery, .psQuery, .psQuery]
    if ¬ container_is_running w.containers container_name then (1, tr1)
    else shellAfterRunning w container_name shell_command_args as_root as_user tr1

/-! Spec-side definitions used to state the claims (serializations and
cleanliness side conditions; these are not part of the source model). -/

/-- Comma-and-equals serialization of a label mapping, the docker wire
format the spec describes. -/
def joinLabelsChars (m : List (List Char × List Char)) : List Char :=
  joinChar ',' (m.map (fun p => p.1 ++ '=' :: p.2))

/-- Cleanliness of a label mapping under the docker wire format: no commas
anywhere, no equals sign inside a key, and keys and values carry no
surrounding whitespace. -/
def LabelsClean (m : List (List Char × List Char)) : Prop :=
  ∀ p ∈ m, ',' ∉ p.1 ∧ ',' ∉ p.2 ∧ '=' ∉ p.1 ∧ trimC p.1 = p.1 ∧ trimC p.2 = p.2

/-- Tilde-remap target of one home share, as computed inside
_get_home_share_mount_pairs. -/
def tildeTarget (ctx : HomeShareCtx) (home_share_input : String) : String :=
  let home_share_src_abs := ctx.normalize home_share_input
  let home_share_src_rel := relpath home_share_src_abs ctx.userHome
  if home_share_src_rel = "." then ctx.imageHome
  else posixJoin ctx.imageHome (replaceChar home_share_src_rel '\\' '/')

/-- Concrete home-share context used by the claim C6 counterexample and
witness: identity canonicalization, every path exists, user home /home/u,
image home /ch. -/
def ctx0 : HomeShareCtx := ⟨fun s => s, fun _ => true, "/home/u", "/ch"⟩

/-- Concrete JSON parser used by the claim C8 witness: a fixed table
mapping two object documents and their array document to parsed values;
everything else fails to parse. -/
def sampleLoads (s : String) : Option JValue :=
  if s = "objA" then some (.obj [("a", .str "1")])
  else if s = "objB" then some (.obj [("b", .str "2")])
  else if s = "arrAB" then
    some (.arr [.obj [("a", .str "1")], .obj [("b", .str "2")]])
  else none

/-! Shared helper lemmas about the character-level string primitives. -/

theorem mem_dropWhile_of_not {α} {p : α → Bool} {l : List α} {a : α}
    (ha : a ∈ l) (hpa : p a = false) : a ∈ l.dropWhile p := by
  induction l with
  | nil => cases ha
  | cons x xs ih =>
    rw [List.dropWhile_cons]
    by_cases hx : p x = true
    · rw [if_pos hx]
      rcases List.mem_cons.mp ha with h | h
      · subst h; rw [hpa] at hx; cases hx
      · exact ih h
    · rw [if_neg hx]
      exact ha

theorem trimC_ne_nil_of_mem {l : List Char} {c : Char}
    (hc : c ∈ l) (hw : c.isWhitespace = false) : trimC l ≠ [] := by
  intro h
  unfold trimC at h
  rw [List.reverse_eq_nil_iff, List.dropWhile_eq_nil_iff] at h
  have h1 : c ∈ l.dropWhile Char.isWhitespace := mem_dropWhile_of_not hc hw
  have h2 : c ∈ (l.dropWhile Char.isWhitespace).reverse := List.mem_reverse.mpr h1
  have := h c h2
  rw [hw] at this
  cases this

theorem dropWhile_eq_self_of_head {α} {p : α → Bool} {l : List α}
    (h : ∀ c, l.head? = some c → p c = false) : l.dropWhile p = l := by
  cases l with
  | nil => rfl
  | cons a as =>
    rw [List.dropWhile_cons, if_neg]
    rw [h a rfl]
    simp

theorem head_false_of_dropWhile_eq_self {α} {p : α → Bool} {l : List α} {c : α}
    (h : l.dropWhile p = l) (hc : l.head? = some c) : p c = false := by
  cases l with
  | nil => cases hc
  | cons a as =>
    have hca : a = c := by simpa using hc
    subst hca
    by_cases hp : p a = true
    · rw [List.dropWhile_cons, if_pos hp] at h
      have hlen := congrArg List.length h
      have hle := (List.dropWhile_sublist (l := as) p).length_le
      simp at hlen
      omega
    · simpa using hp

theorem trimC_eq_self {l : List Char}
    (h1 : ∀ c, l.head? = some c → c.isWhitespace = false)
    (h2 : ∀ c, l.getLast? = some c → c.isWhitespace = false) : trimC l = l := by
  unfold trimC
  rw [dropWhile_eq_self_of_head h1]
  rw [dropWhile_eq_self_of_head (by
    intro c hc
    rw [List.head?_reverse] at hc
    exact h2 c hc)]
  exact l.reverse_reverse

theorem dropWhile_head_eq_self_of_trimC {l : List Char}
    (hst : trimC l = l) : l.dropWhile Char.isWhitespace = l := by
  have h1 : (l.dropWhile Char.isWhitespace).Sublist l := List.dropWhile_sublist _
  have h2 : (trimC l).Sublist (l.dropWhile Char.isWhitespace) := by
    unfold trimC
    have h3 : ((l.dropWhile Char.isWhitespace).reverse.dropWhile
        Char.isWhitespace).Sublist (l.dropWhile Char.isWhitespace).reverse :=
      List.dropWhile_sublist _
    simpa using h3.reverse
  apply h1.eq_of_length
  have e1 := h2.length_le
  have e2 := h1.length_le
  have e3 := congrArg List.length hst
  omega

theorem head_not_ws_of_trimC_self {l : List Char} {c : Char}
    (hst : trimC l = l) (hc : l.head? = some c) : c.isWhitespace = false :=
  head_false_of_dropWhile_eq_self (dropWhile_head_eq_self_of_trimC hst) hc

theorem getLast_not_ws_of_trimC_self {l : List Char} {c : Char}
    (hst : trimC l = l) (hc : l.getLast? = some c) : c.isWhitespace = false := by
  have h0 := dropWhile_head_eq_self_of_trimC hst
  have h1 : l.reverse.dropWhile Char.isWhitespace = l.reverse := by
    have h2 : trimC l = (l.reverse.dropWhile Char.isWhitespace).reverse := by
      unfold trimC
      rw [h0]
    rw [hst] at h2
    have := congrArg List.reverse h2
    simpa using this.symm
  apply head_false_of_dropWhile_eq_self h1
  rw [List.head?_reverse]
  exact hc

/-! Claim C1: home resolution order of get_shell_home_dir. -/

/-- Claim C1: for every shell request on a container, a root request returns
the fixed container root home; otherwise the container environment's
HOST_HOME wins when non-empty, then the environment's HOME when non-empty,
then the actively probed default `$HOME`, in exactly that order; and when
all three signals are empty the function raises the no-non-root-home error
instead of returning any default. -/
theorem get_shell_home_dir_resolution (c : ShellContainer) :
    get_shell_home_dir c true = .ok CONTAINER_HOME_DIR
    ∧ (pyStrip ((dictGet c.env "HOST_HOME").getD "") ≠ "" →
        get_shell_home_dir c false = .ok (pyStrip ((dictGet c.env "HOST_HOME").getD "")))
    ∧ (pyStrip ((dictGet c.env "HOST_HOME").getD "") = "" →
        pyStrip ((dictGet c.env "HOME").getD "") ≠ "" →
        get_shell_home_dir c false = .ok (pyStrip ((dictGet c.env "HOME").getD "")))
    ∧ (pyStrip ((dictGet c.env "HOST_HOME").getD "") = "" →
        pyStrip ((dictGet c.env "HOME").getD "") = "" →
        probe_container_default_home c ≠ "" →
        get_shell_home_dir c false = .ok (probe_container_default_home c))
    ∧ (pyStrip ((dictGet c.env "HOST_HOME").getD "") = "" →
        pyStrip ((dictGet c.env "HOME").getD "") = "" →
        probe_container_default_home c = "" →
        get_shell_home_dir c false = .error .noNonRootHome) := by
  refine ⟨rfl, fun h1 => ?_, fun h1 h2 => ?_, fun h1 h2 h3 => ?_, fun h1 h2 h3 => ?_⟩
  · simp [get_shell_home_dir, h1]
  · simp [get_shell_home_dir, h1, h2]
  · simp [get_shell_home_dir, h1, h2, h3]
  · simp [get_shell_home_dir, h1, h2, h3]

/-- Witness for claim C1: a container publishing only HOST_HOME resolves to
it, at a concrete input. -/
theorem get_shell_home_dir_resolution_witness :
    get_shell_home_dir ⟨[("HOST_HOME", "/mim/home/u")], none⟩ false =
      .ok "/mim/home/u" :=
  (get_shell_home_dir_resolution ⟨[("HOST_HOME", "/mim/home/u")], none⟩).2.1
    (by decide)

/-! Claim C2: validation order of resolve_non_root_shell_home. -/

/-- Claim C2: for every runtime and container world,
resolve_non_root_shell_home rejects with the invalid-shell-home error, and
issues no container command at all, whenever the requested home path is
blank, not absolute, or equal to "/" or "/root". -/
theorem resolve_non_root_shell_home_rejects (w : ShellProbeWorld)
    (runtime shell_home_dir : String)
    (h : pyStrip shell_home_dir = "" ∨ strHasPre "/" shell_home_dir = false ∨
      shell_home_dir = "/" ∨ shell_home_dir = "/root") :
    resolve_non_root_shell_home w runtime shell_home_dir =
      (.error .invalidShellHome, []) := by
  by_cases h1 : (pyStrip shell_home_dir).length = 0
  · unfold resolve_non_root_shell_home
    rw [if_pos h1]
  · have h1' : pyStrip shell_home_dir ≠ "" := by
      intro he
      rw [he] at h1
      exact h1 rfl
    by_cases h2 : strHasPre "/" shell_home_dir = true
    · have h3 : shell_home_dir = "/" ∨ shell_home_dir = "/root" := by
        rcases h with h | h | h | h
        · exact absurd h h1'
        · rw [h] at h2; cases h2
        · exact .inl h
        · exact .inr h
      unfold resolve_non_root_shell_home
      rw [if_neg h1, if_neg (by simpa using h2), if_pos h3]
    · unfold resolve_non_root_shell_home
      rw [if_neg h1, if_pos (by simpa using h2)]

/-- Witness for claim C2: the container root home is rejected with no
container command, at a concrete input. -/
theorem resolve_non_root_shell_home_rejects_witness :
    resolve_non_root_shell_home ⟨true, some "/root"⟩ "docker" "/root" =
      (.error .invalidShellHome, []) :=
  resolve_non_root_shell_home_rejects ⟨true, some "/root"⟩ "docker" "/root"
    (.inr (.inr (.inr rfl)))

/-! Claim C9: runtime selection and validation. -/

theorem validate_runtime_ok_mem {r n : String}
    (h : _normalize_and_validate_runtime r = .ok n) :
    n = "podman" ∨ n = "docker" := by
  unfold _normalize_and_validate_runtime at h
  by_cases hm : _normalize_runtime r ∈ SUPPORTED_CONTAINER_RUNTIMES
  · rw [if_pos hm] at h
    cases h
    simpa [SUPPORTED_CONTAINER_RUNTIMES] using hm
  · rw [if_neg hm] at h
    cases h

/-- Claim C9: get_container_runtime only ever yields "podman" or "docker"
(for any override accepted by the setter and any persisted value), returns
the default "podman" when no configuration is present, and the validator
rejects every other normalized value, which is then not accepted as the
runtime (the getter falls back to "podman"). -/
theorem get_container_runtime_validated :
    (∀ (ov file raw : Option String), set_container_runtime_override raw = .ok ov →
      get_container_runtime ov file = "podman" ∨ get_container_runtime ov file = "docker")
    ∧ get_container_runtime none none = "podman"
    ∧ (∀ r : String, _normalize_runtime r ∉ SUPPORTED_CONTAINER_RUNTIMES →
        _normalize_and_validate_runtime r = .error () ∧
        get_container_runtime none (some r) = "podman") := by
  refine ⟨?_, rfl, ?_⟩
  · intro ov file raw h
    cases raw with
    | none =>
      cases h
      unfold get_container_runtime
      cases hv : _normalize_and_validate_runtime (file.getD "podman") with
      | ok n =>
        rcases validate_runtime_ok_mem hv with h | h <;> simp [hv, h]
      | error e => simp [hv]
    | some r =>
      simp only [set_container_runtime_override] at h
      cases hv : _normalize_and_validate_runtime r with
      | ok n =>
        rw [hv] at h
        cases h
        rcases validate_runtime_ok_mem hv with h | h <;> simp [get_container_runtime, h]
      | error e =>
        rw [hv] at h
        cases h
  · intro r hm
    have he : _normalize_and_validate_runtime r = .error () := by
      unfold _normalize_and_validate_runtime
      rw [if_neg hm]
    refine ⟨he, ?_⟩
    simp [get_container_runtime, he]

/-- Witness for claim C9: a validated override is one of the two supported
runtimes, at a concrete input. -/
theorem get_container_runtime_validated_witness :
    get_container_runtime (some "docker") none = "podman" ∨
      get_container_runtime (some "docker") none = "docker" :=
  get_container_runtime_validated.1 (some "docker") none (some " Docker ")
    (by rfl)

/-! Claim C10: totality of the container predicates. -/

/-- Claim C10: for every name absent from the runtime's container list the
three public predicates return false rather than raising, and
container_is_running returns false for an existing container whose State is
anything other than "running". -/
theorem container_predicates_total (cs : List Container) (name : String) :
    ((∀ c ∈ cs, name ∉ _parse_container_names c.names) →
      container_exists cs name = false ∧ container_is_running cs name = false ∧
      container_is_mim cs name = false)
    ∧ (∀ c, _get_container_by_name cs name = some c → c.state ≠ some "running" →
        container_is_running cs name = false) := by
  constructor
  · intro h
    have hn : _get_container_by_name cs name = none := by
      unfold _get_container_by_name
      rw [List.find?_eq_none]
      intro c hc
      simp [h c hc]
    exact ⟨by simp [container_exists, hn],
      by simp [container_is_running, hn],
      by simp [container_is_mim, hn]⟩
  · intro c hc hst
    simp only [container_is_running, hc]
    exact beq_eq_false_iff_ne.mpr hst

/-- Witness for claim C10: the predicates are false on the empty container
list, at a concrete input. -/
theorem container_predicates_total_witness :
    container_exists [] "box" = false ∧ container_is_running [] "box" = false ∧
      container_is_mim [] "box" = false :=
  (container_predicates_total [] "box").1 (by intro c hc; cases hc)

/-! Claim C7: destructive and entry operations fail closed. -/

/-- Claim C7: each of destroy, shell, start and stop first verifies that
the named container exists and carries the mim label; when either check
fails the command exits with code 1 and its trace holds only read-only
inventory queries — no mutating runtime command and no filesystem
mutation was performed. -/
theorem mim_guard_fail_closed (w : CliWorld) (name : String)
    (force as_root as_user : Bool) (args : List String) (timeout : Nat)
    (h : container_exists w.containers name = false ∨
      container_is_mim w.containers name = false) :
    ((destroy w name force).1 = 1 ∧
      ∀ e ∈ (destroy w name force).2, cliEventIsMutation e = false)
    ∧ ((shell w name args as_root as_user).1 = 1 ∧
      ∀ e ∈ (shell w name args as_root as_user).2, cliEventIsMutation e = false)
    ∧ ((start w name).1 = 1 ∧
      ∀ e ∈ (start w name).2, cliEventIsMutation e = false)
    ∧ ((stop w name timeout).1 = 1 ∧
      ∀ e ∈ (stop w name timeout).2, cliEventIsMutation e = false) := by
  have final : ∀ r : Nat × List CliEvent,
      (r = (1, [CliEvent.psQuery]) ∨ r = (1, [CliEvent.psQuery, CliEvent.psQuery])) →
      r.1 = 1 ∧ ∀ e ∈ r.2, cliEventIsMutation e = false := by
    rintro r (rfl | rfl) <;> simp [cliEventIsMutation]
  have hd : destroy w name force = (1, [CliEvent.psQuery]) ∨
      destroy w name force = (1, [CliEvent.psQuery, CliEvent.psQuery]) := by
    rcases h with h | h
    · left; simp [destroy, h]
    · by_cases hex : container_exists w.containers name = true
      · right; simp [destroy, hex, h]
      · left; simp [destroy, hex]
  have hs : shell w name args as_root as_user = (1, [CliEvent.psQuery]) ∨
      shell w name args as_root as_user = (1, [CliEvent.psQuery, CliEvent.psQuery]) := by
    rcases h with h | h
    · left; simp [shell, h]
    · by_cases hex : container_exists w.containers name = true
      · right; simp [shell, hex, h]
      · left; simp [shell, hex]
  have hst : start w name = (1, [CliEvent.psQuery]) ∨
      start w name = (1, [CliEvent.psQuery, CliEvent.psQuery]) := by
    rcases h with h | h
    · left; simp [start, h]
    · by_cases hex : container_exists w.containers name = true
      · right; simp [start, hex, h]
      · left; simp [start, hex]
  have hsp : stop w name timeout = (1, [CliEvent.psQuery]) ∨
      stop w name timeout = (1, [CliEvent.psQuery, CliEvent.psQuery]) := by
    rcases h with h | h
    · left; simp [stop, h]
    · by_cases hex : container_exists w.containers name = true
      · right; simp [stop, hex, h]
      · left; simp [stop, hex]
  exact ⟨final _ hd, final _ hs, final _ hst, final _ hsp⟩

/-- Witness for claim C7: destroying and starting a container missing from
an empty inventory exits with code 1, at a concrete input. -/
theorem mim_guard_fail_closed_witness :
    (destroy ⟨[], [], true, true, true, true, "podman", ⟨[], none⟩,
        ⟨true, none⟩, true, none⟩ "box" false).1 = 1 ∧
    (start ⟨[], [], true, true, true, true, "podman", ⟨[], none⟩,
        ⟨true, none⟩, true, none⟩ "box").1 = 1 :=
  ⟨(mim_guard_fail_closed ⟨[], [], true, true, true, true, "podman", ⟨[], none⟩,
      ⟨true, none⟩, true, none⟩ "box" false false false [] 0 (Or.inl rfl)).1.1,
   (mim_guard_fail_closed ⟨[], [], true, true, true, true, "podman", ⟨[], none⟩,
      ⟨true, none⟩, true, none⟩ "box" false false false [] 0 (Or.inl rfl)).2.2.1.1⟩

/-! Claim C4: the path mapper. -/

theorem bestMount_eq_none {ms : List (String × String)} :
    bestMount ms = none ↔ ms = [] := by
  cases ms with
  | nil => simp [bestMount]
  | cons m ms =>
    simp only [bestMount]
    split
    · simp
    · split <;> simp

theorem bestMount_mem {ms : List (String × String)} {b : String × String}
    (h : bestMount ms = some b) : b ∈ ms := by
  induction ms with
  | nil => cases h
  | cons m ms ih =>
    simp only [bestMount] at h
    split at h
    · injection h with h
      subst h
      exact List.mem_cons_self m ms
    · next c heq =>
        split at h
        · injection h with h
          subst h
          exact List.mem_cons_self m ms
        · injection h with h
          subst h
          exact List.mem_cons_of_mem m (ih heq)

theorem bestMount_maximal {ms : List (String × String)} {b : String × String}
    (h : bestMount ms = some b) :
    ∀ m ∈ ms, (pathComponents m.1).length ≤ (pathComponents b.1).length := by
  induction ms generalizing b with
  | nil => cases h
  | cons m ms ih =>
    intro x hx
    simp only [bestMount] at h
    split at h
    · next heq =>
        have hnil : ms = [] := bestMount_eq_none.mp heq
        subst hnil
        injection h with h
        subst h
        rcases List.mem_cons.mp hx with h | h
        · rw [h]
        · cases h
    · next c heq =>
        split at h
        · next hlt =>
            injection h with h
            subst h
            rcases List.mem_cons.mp hx with h | h
            · rw [h]
            · exact (ih heq x h).trans (Nat.le_of_lt hlt)
        · next hlt =>
            injection h with h
            subst h
            rcases List.mem_cons.mp hx with h | h
            · rw [h]; exact Nat.le_of_not_lt hlt
            · exact ih heq x h

/-- Claim C4: map_host_path_to_container returns none exactly when no mount
source is a component-wise prefix of the host path; a returned value comes
from a matching mount of maximal source length and is the destination
verbatim on an exact match, else the destination posix-joined with the
translated remainder; and on the spec's concrete example the more specific
mount wins. -/
theorem map_host_path_spec (host_path : String) (mounts : List (String × String)) :
    (map_host_path_to_container host_path mounts = none ↔
      ∀ m ∈ mounts, ¬ (pathComponents m.1).isPrefixOf (pathComponents host_path) = true)
    ∧ (∀ r, map_host_path_to_container host_path mounts = some r →
      ∃ m, m ∈ mounts ∧
        (pathComponents m.1).isPrefixOf (pathComponents host_path) = true ∧
        (∀ m2 ∈ mounts, (pathComponents m2.1).isPrefixOf (pathComponents host_path) = true →
          (pathComponents m2.1).length ≤ (pathComponents m.1).length) ∧
        some r = (if pathComponents m.1 = pathComponents host_path then some m.2
          else some (posixJoin m.2 (replaceChar
            (joinStr '/' ((pathComponents host_path).drop (pathComponents m.1).length))
            '\\' '/'))))
    ∧ map_host_path_to_container "/home/u/proj/x"
        [("/home/u", "/c/u"), ("/home/u/proj", "/c/proj")] = some "/c/proj/x" := by
  refine ⟨?_, ?_, by decide⟩
  · simp only [map_host_path_to_container]
    split
    · next hbm =>
        have hnil := bestMount_eq_none.mp hbm
        rw [List.filter_eq_nil_iff] at hnil
        simpa using hnil
    · next sd hbm =>
        have hmem := List.mem_filter.mp (bestMount_mem hbm)
        constructor
        · intro h
          split at h <;> cases h
        · intro h
          exact absurd (by simpa using hmem.2) (h sd hmem.1)
  · intro r hr
    simp only [map_host_path_to_container] at hr
    split at hr
    · cases hr
    · next sd hbm =>
        have hmem := List.mem_filter.mp (bestMount_mem hbm)
        refine ⟨sd, hmem.1, by simpa using hmem.2, ?_, hr.symm⟩
        intro m2 hm2 hpre
        exact bestMount_maximal hbm m2 (List.mem_filter.mpr ⟨hm2, by simpa using hpre⟩)

/-- Witness for claim C4: the spec's concrete example, extracted from the
theorem at the concrete input. -/
theorem map_host_path_spec_witness :
    map_host_path_to_container "/home/u/proj/x"
      [("/home/u", "/c/u"), ("/home/u/proj", "/c/proj")] = some "/c/proj/x" :=
  (map_host_path_spec "/home/u/proj/x"
    [("/home/u", "/c/u"), ("/home/u/proj", "/c/proj")]).2.2

/-! Claim C3: docker identity reconciliation. -/

theorem string_append_ne_empty {s t : String} (h : s.data ≠ []) : s ++ t ≠ "" := by
  intro he
  have h2 : s.data ++ t.data = [] := congrArg String.data he
  exact h (List.append_eq_nil.mp h2).1

theorem awkFirstNameByGid_ne_of_find {gs : List GroupEntry} {gid : Nat} {e : GroupEntry}
    (hw : ∀ x ∈ gs, x.name ≠ "") (h : gs.find? (fun x => x.gid == gid) = some e) :
    awkFirstNameByGid gs gid ≠ "" := by
  unfold awkFirstNameByGid
  rw [h]
  exact hw e (List.mem_of_find?_eq_some h)

theorem awkFirstNameByUid_ne_of_find {ps : List PasswdEntry} {uid : Nat} {e : PasswdEntry}
    (hw : ∀ x ∈ ps, x.name ≠ "") (h : ps.find? (fun x => x.uid == uid) = some e) :
    awkFirstNameByUid ps uid ≠ "" := by
  unfold awkFirstNameByUid
  rw [h]
  exact hw e (List.mem_of_find?_eq_some h)

theorem scriptGroupPhase_passwd (st : EtcState) (gid : Nat) (group fg : String) :
    (scriptGroupPhase st gid group fg).passwd = st.passwd := by
  simp only [scriptGroupPhase]
  split <;> rfl

theorem scriptGroupPhase_paths (st : EtcState) (gid : Nat) (group fg : String) :
    (scriptGroupPhase st gid group fg).zshPath = st.zshPath ∧
    (scriptGroupPhase st gid group fg).bashPath = st.bashPath := by
  simp only [scriptGroupPhase]
  split <;> exact ⟨rfl, rfl⟩

theorem scriptPasswdPhase_groups (st : EtcState) (uid gid : Nat) (user fu home : String) :
    (scriptPasswdPhase st uid gid user fu home).groups = st.groups := by
  simp only [scriptPasswdPhase]
  split <;> rfl

theorem scriptGroupPhase_stable_of_groups_eq (st st' : EtcState) (gid : Nat)
    (group fg : String) (hw : ∀ e ∈ st.groups, e.name ≠ "")
    (hgr : group ≠ "") (hfg : fg ≠ "")
    (heq : st'.groups = (scriptGroupPhase st gid group fg).groups) :
    scriptGroupPhase st' gid group fg = st' := by
  cases hf : st.groups.find? (fun e => e.gid == gid) with
  | some e =>
    have hne := awkFirstNameByGid_ne_of_find hw hf
    have h1 : scriptGroupPhase st gid group fg = st := by
      simp only [scriptGroupPhase]
      rw [if_neg hne]
    rw [h1] at heq
    have hne' : awkFirstNameByGid st'.groups gid ≠ "" := by
      rw [heq]
      exact hne
    simp only [scriptGroupPhase]
    rw [if_neg hne']
  | none =>
    have hz : awkFirstNameByGid st.groups gid = "" := by
      unfold awkFirstNameByGid
      rw [hf]
    have hgne : (if awkGroupNameExists st.groups group then fg else group) ≠ "" := by
      split <;> assumption
    have h1 : scriptGroupPhase st gid group fg =
        { st with groups := st.groups ++
          [⟨if awkGroupNameExists st.groups group then fg else group, gid⟩] } := by
      simp only [scriptGroupPhase]
      rw [if_pos hz]
    have hfind' : st'.groups.find? (fun e => e.gid == gid) =
        some ⟨if awkGroupNameExists st.groups group then fg else group, gid⟩ := by
      rw [heq, h1, List.find?_append, hf]
      simp [List.find?]
    have hne' : awkFirstNameByGid st'.groups gid ≠ "" := by
      unfold awkFirstNameByGid
      rw [hfind']
      exact hgne
    simp only [scriptGroupPhase]
    rw [if_neg hne']

theorem scriptPasswdPhase_stable_of_passwd_eq (st st' : EtcState) (uid gid : Nat)
    (user fu home : String) (hw : ∀ e ∈ st.passwd, e.name ≠ "")
    (hus : user ≠ "") (hfu : fu ≠ "")
    (heq : st'.passwd = (scriptPasswdPhase st uid gid user fu home).passwd) :
    scriptPasswdPhase st' uid gid user fu home = st' := by
  cases hf : st.passwd.find? (fun e => e.uid == uid) with
  | some e =>
    have hne := awkFirstNameByUid_ne_of_find hw hf
    have h1 : scriptPasswdPhase st uid gid user fu home = st := by
      simp only [scriptPasswdPhase]
      rw [if_neg hne]
    rw [h1] at heq
    have hne' : awkFirstNameByUid st'.passwd uid ≠ "" := by
      rw [heq]
      exact hne
    simp only [scriptPasswdPhase]
    rw [if_neg hne']
  | none =>
    have hz : awkFirstNameByUid st.passwd uid = "" := by
      unfold awkFirstNameByUid
      rw [hf]
    have hune : (if awkUserNameExists st.passwd user then fu else user) ≠ "" := by
      split <;> assumption
    have h1 : scriptPasswdPhase st uid gid user fu home =
        { st with passwd := st.passwd ++
          [⟨if awkUserNameExists st.passwd user then fu else user, uid, gid, home,
            scriptShellPath st⟩] } := by
      simp only [scriptPasswdPhase]
      rw [if_pos hz]
    have hfind' : st'.passwd.find? (fun e => e.uid == uid) =
        some ⟨if awkUserNameExists st.passwd user then fu else user, uid, gid, home,
          scriptShellPath st⟩ := by
      rw [heq, h1, List.find?_append, hf]
      simp [List.find?]
    have hne' : awkFirstNameByUid st'.passwd uid ≠ "" := by
      unfold awkFirstNameByUid
      rw [hfind']
      exact hune
    simp only [scriptPasswdPhase]
    rw [if_neg hne']

theorem scriptGroupPhase_count (st : EtcState) (gid : Nat) (group fg : String)
    (hw : ∀ e ∈ st.groups, e.name ≠ "")
    (h : (st.groups.filter (fun e => e.gid == gid)).length ≤ 1) :
    (((scriptGroupPhase st gid group fg).groups.filter (fun e => e.gid == gid)).length ≤ 1) := by
  cases hf : st.groups.find? (fun e => e.gid == gid) with
  | some e =>
    have hne := awkFirstNameByGid_ne_of_find hw hf
    simp only [scriptGroupPhase]
    rw [if_neg hne]
    exact h
  | none =>
    have hnil : st.groups.filter (fun e => e.gid == gid) = [] := by
      rw [List.filter_eq_nil_iff]
      intro a ha
      exact List.find?_eq_none.mp hf a ha
    simp only [scriptGroupPhase]
    split
    · simp [List.filter_append, hnil]
    · exact h

theorem scriptPasswdPhase_count (st : EtcState) (uid gid : Nat)
    (user fu home : String)
    (hw : ∀ e ∈ st.passwd, e.name ≠ "")
    (h : (st.passwd.filter (fun e => e.uid == uid)).length ≤ 1) :
    (((scriptPasswdPhase st uid gid user fu home).passwd.filter
      (fun e => e.uid == uid)).length ≤ 1) := by
  cases hf : st.passwd.find? (fun e => e.uid == uid) with
  | some e =>
    have hne := awkFirstNameByUid_ne_of_find hw hf
    simp only [scriptPasswdPhase]
    rw [if_neg hne]
    exact h
  | none =>
    have hnil : st.passwd.filter (fun e => e.uid == uid) = [] := by
      rw [List.filter_eq_nil_iff]
      intro a ha
      exact List.find?_eq_none.mp hf a ha
    simp only [scriptPasswdPhase]
    split
    · simp [List.filter_append, hnil]
    · exact h

theorem runDockerIdentityScript_idem (st : EtcState) (uid gid : Nat)
    (user group fu fg home : String)
    (hg : ∀ e ∈ st.groups, e.name ≠ "") (hp : ∀ e ∈ st.passwd, e.name ≠ "")
    (hus : user ≠ "") (hgr : group ≠ "") (hfu : fu ≠ "") (hfg : fg ≠ "") :
    runDockerIdentityScript (runDockerIdentityScript st uid gid user group fu fg home).1
      uid gid user group fu fg home
    = runDockerIdentityScript st uid gid user group fu fg home := by
  have hgEq : (scriptPasswdPhase (scriptGroupPhase st gid group fg) uid gid user fu home).groups
      = (scriptGroupPhase st gid group fg).groups :=
    scriptPasswdPhase_groups (scriptGroupPhase st gid group fg) uid gid user fu home
  have hstable1 : scriptGroupPhase
      (scriptPasswdPhase (scriptGroupPhase st gid group fg) uid gid user fu home) gid group fg
      = scriptPasswdPhase (scriptGroupPhase st gid group fg) uid gid user fu home :=
    scriptGroupPhase_stable_of_groups_eq st _ gid group fg hg hgr hfg hgEq
  have hpw : ∀ e ∈ (scriptGroupPhase st gid group fg).passwd, e.name ≠ "" := by
    rw [scriptGroupPhase_passwd]
    exact hp
  have hstable2 : scriptPasswdPhase
      (scriptPasswdPhase (scriptGroupPhase st gid group fg) uid gid user fu home)
      uid gid user fu home
      = scriptPasswdPhase (scriptGroupPhase st gid group fg) uid gid user fu home :=
    scriptPasswdPhase_stable_of_passwd_eq (scriptGroupPhase st gid group fg) _
      uid gid user fu home hpw hus hfu rfl
  simp only [runDockerIdentityScript]
  rw [hstable1, hstable2]

/-- Counterexample for claim C3 as stated: in a container state holding a
group line with an empty name field for the target gid, the second run of
the identity reconciliation appends a second new group entry, so the state
keeps changing and three entries for that gid remain — the script keys its
lookup on the printed name, which is empty. -/
theorem ensure_docker_identity_cex :
    (ensure_docker_non_root_identity
        (ensure_docker_non_root_identity ⟨[⟨"", 5⟩], [], none, none⟩
          ⟨7, 5, "u", "g"⟩ "/h").1
        ⟨7, 5, "u", "g"⟩ "/h").1
      ≠ (ensure_docker_non_root_identity ⟨[⟨"", 5⟩], [], none, none⟩
          ⟨7, 5, "u", "g"⟩ "/h").1
    ∧ ((ensure_docker_non_root_identity
        (ensure_docker_non_root_identity ⟨[⟨"", 5⟩], [], none, none⟩
          ⟨7, 5, "u", "g"⟩ "/h").1
        ⟨7, 5, "u", "g"⟩ "/h").1.groups.filter (fun e => e.gid == 5)).length = 3 := by
  decide

set_option maxHeartbeats 1000000 in
/-- Claim C3 (amended): provided every existing /etc/passwd and /etc/group
entry carries a non-empty name — as every real user database does, and as
the sanitized host identity always does — running the docker identity
reconciliation twice leaves the databases exactly as after the first run
(the second run appends nothing) and returns the same resolved username
both times; moreover when the initial state holds at most one entry for
the target gid and uid, so does the final state. -/
theorem ensure_docker_identity_idempotent (st : EtcState) (identity : HostIdentity)
    (home : String)
    (hg : ∀ e ∈ st.groups, e.name ≠ "") (hp : ∀ e ∈ st.passwd, e.name ≠ "")
    (hu : identity.username ≠ "") (hgr : identity.groupname ≠ "") :
    (ensure_docker_non_root_identity (ensure_docker_non_root_identity st identity home).1
        identity home).1
      = (ensure_docker_non_root_identity st identity home).1
    ∧ (ensure_docker_non_root_identity (ensure_docker_non_root_identity st identity home).1
        identity home).2
      = (ensure_docker_non_root_identity st identity home).2
    ∧ ((st.groups.filter (fun e => e.gid == identity.gid)).length ≤ 1 →
        (((ensure_docker_non_root_identity st identity home).1).groups.filter
          (fun e => e.gid == identity.gid)).length ≤ 1)
    ∧ ((st.passwd.filter (fun e => e.uid == identity.uid)).length ≤ 1 →
        (((ensure_docker_non_root_identity st identity home).1).passwd.filter
          (fun e => e.uid == identity.uid)).length ≤ 1) := by
  have hfu : ("mimuser" ++ toString identity.uid) ≠ "" :=
    string_append_ne_empty (by decide)
  have hfg : ("mimgroup" ++ toString identity.gid) ≠ "" :=
    string_append_ne_empty (by decide)
  have hidem := runDockerIdentityScript_idem st identity.uid identity.gid
    identity.username identity.groupname ("mimuser" ++ toString identity.uid)
    ("mimgroup" ++ toString identity.gid) home hg hp hu hgr hfu hfg
  have e1 : ∀ s : EtcState, (ensure_docker_non_root_identity s identity home).1
      = (runDockerIdentityScript s identity.uid identity.gid identity.username
        identity.groupname ("mimuser" ++ toString identity.uid)
        ("mimgroup" ++ toString identity.gid) home).1 := by
    intro s
    simp only [ensure_docker_non_root_identity]
  have e2 : ∀ s : EtcState, (ensure_docker_non_root_identity s identity home).2
      = lastNonemptyLine (runDockerIdentityScript s identity.uid identity.gid
        identity.username identity.groupname ("mimuser" ++ toString identity.uid)
        ("mimgroup" ++ toString identity.gid) home).2 := by
    intro s
    simp only [ensure_docker_non_root_identity]
  have e3 : (runDockerIdentityScript st identity.uid identity.gid identity.username
      identity.groupname ("mimuser" ++ toString identity.uid)
      ("mimgroup" ++ toString identity.gid) home).1
      = scriptPasswdPhase (scriptGroupPhase st identity.gid identity.groupname
        ("mimgroup" ++ toString identity.gid)) identity.uid identity.gid
        identity.username ("mimuser" ++ toString identity.uid) home := by
    simp only [runDockerIdentityScript]
  refine ⟨?_, ?_, ?_, ?_⟩
  · rw [e1 ((ensure_docker_non_root_identity st identity home).1), e1 st, hidem]
  · rw [e2 ((ensure_docker_non_root_identity st identity home).1), e2 st, e1 st, hidem]
  · intro h
    have hcount := scriptGroupPhase_count st identity.gid identity.groupname
      ("mimgroup" ++ toString identity.gid) hg h
    have hEqN : (((ensure_docker_non_root_identity st identity home).1).groups.filter
          (fun e => e.gid == identity.gid)).length
        = ((scriptGroupPhase st identity.gid identity.groupname
          ("mimgroup" ++ toString identity.gid)).groups.filter
          (fun e => e.gid == identity.gid)).length := by
      rw [e1 st, e3, scriptPasswdPhase_groups]
    exact hEqN.trans_le hcount
  · intro h
    have hwA : ∀ e ∈ (scriptGroupPhase st identity.gid identity.groupname
        ("mimgroup" ++ toString identity.gid)).passwd, e.name ≠ "" := by
      rw [scriptGroupPhase_passwd]
      exact hp
    have hcA : ((scriptGroupPhase st identity.gid identity.groupname
        ("mimgroup" ++ toString identity.gid)).passwd.filter
          (fun e => e.uid == identity.uid)).length ≤ 1 := by
      rw [scriptGroupPhase_passwd]
      exact h
    have hcount := scriptPasswdPhase_count
      (scriptGroupPhase st identity.gid identity.groupname
        ("mimgroup" ++ toString identity.gid))
      identity.uid identity.gid identity.username
      ("mimuser" ++ toString identity.uid) home hwA hcA
    have hEqN : (((ensure_docker_non_root_identity st identity home).1).passwd.filter
          (fun e => e.uid == identity.uid)).length
        = ((scriptPasswdPhase (scriptGroupPhase st identity.gid identity.groupname
            ("mimgroup" ++ toString identity.gid)) identity.uid identity.gid
            identity.username ("mimuser" ++ toString identity.uid) home).passwd.filter
          (fun e => e.uid == identity.uid)).length := by
      rw [e1 st, e3]
    exact hEqN.trans_le hcount

/-- Witness for claim C3: on a clean concrete user database the second run
changes nothing, returns the same username, and no duplicate entries for
the target uid and gid remain. -/
theorem ensure_docker_identity_idempotent_witness :
    (ensure_docker_non_root_identity
        (ensure_docker_non_root_identity
          ⟨[⟨"wheel", 0⟩], [⟨"root", 0, 0, "/root", "/bin/sh"⟩], none, none⟩
          ⟨1000, 1000, "dev", "dev"⟩ "/home/dev").1
        ⟨1000, 1000, "dev", "dev"⟩ "/home/dev").1
      = (ensure_docker_non_root_identity
          ⟨[⟨"wheel", 0⟩], [⟨"root", 0, 0, "/root", "/bin/sh"⟩], none, none⟩
          ⟨1000, 1000, "dev", "dev"⟩ "/home/dev").1
    ∧ (((ensure_docker_non_root_identity
          ⟨[⟨"wheel", 0⟩], [⟨"root", 0, 0, "/root", "/bin/sh"⟩], none, none⟩
          ⟨1000, 1000, "dev", "dev"⟩ "/home/dev").1).groups.filter
        (fun e => e.gid == 1000)).length ≤ 1 :=
  ⟨(ensure_docker_identity_idempotent
      ⟨[⟨"wheel", 0⟩], [⟨"root", 0, 0, "/root", "/bin/sh"⟩], none, none⟩
      ⟨1000, 1000, "dev", "dev"⟩ "/home/dev"
      (by decide) (by decide) (by decide) (by decide)).1,
   (ensure_docker_identity_idempotent
      ⟨[⟨"wheel", 0⟩], [⟨"root", 0, 0, "/root", "/bin/sh"⟩], none, none⟩
      ⟨1000, 1000, "dev", "dev"⟩ "/home/dev"
      (by decide) (by decide) (by decide) (by decide)).2.2.1 (by decide)⟩

/-! Claim C6: home-share mount planning. -/

theorem addPair_inv {st : MountPlan} (p : String × String)
    (h1 : st.pairs.Nodup) (h2 : ∀ q ∈ st.pairs, q ∈ st.seen) :
    (addPair st p).pairs.Nodup ∧ ∀ q ∈ (addPair st p).pairs, q ∈ (addPair st p).seen := by
  unfold addPair
  split
  · exact ⟨h1, h2⟩
  · next hmem =>
      constructor
      · rw [List.nodup_append]
        refine ⟨h1, List.nodup_singleton p, ?_⟩
        rw [List.disjoint_singleton]
        intro hp
        exact hmem (h2 p hp)
      · intro q hq
        rcases List.mem_append.mp hq with h | h
        · exact List.mem_append.mpr (.inl (h2 q h))
        · exact List.mem_append.mpr (.inr h)

theorem homeShareStep_inv (ctx : HomeShareCtx) {st : MountPlan} (input : String)
    (h1 : st.pairs.Nodup) (h2 : ∀ q ∈ st.pairs, q ∈ st.seen) :
    (homeShareStep ctx st input).pairs.Nodup ∧
      ∀ q ∈ (homeShareStep ctx st input).pairs, q ∈ (homeShareStep ctx st input).seen := by
  have hi1 := addPair_inv (ctx.normalize input, ctx.normalize input) h1 h2
  simp only [homeShareStep]
  split
  · exact ⟨h1, h2⟩
  · split
    · exact ⟨h1, h2⟩
    · split
      all_goals split
      all_goals first
        | exact addPair_inv _ hi1.1 hi1.2
        | exact hi1

theorem foldl_homeShareStep_inv (ctx : HomeShareCtx) (shares : List String) :
    ∀ st : MountPlan, st.pairs.Nodup → (∀ q ∈ st.pairs, q ∈ st.seen) →
      (shares.foldl (homeShareStep ctx) st).pairs.Nodup ∧
      ∀ q ∈ (shares.foldl (homeShareStep ctx) st).pairs,
        q ∈ (shares.foldl (homeShareStep ctx) st).seen := by
  induction shares with
  | nil => intro st h1 h2; exact ⟨h1, h2⟩
  | cons x xs ih =>
    intro st h1 h2
    have hstep := homeShareStep_inv ctx x h1 h2
    exact ih (homeShareStep ctx st x) hstep.1 hstep.2

/-- Counterexample for claim C6 as stated: with the same accepted share
requested twice, the second occurrence is accepted (it exists and lies
under the user home) yet contributes no mount pair at all — the result for
the doubled list equals the result for the single share, two pairs rather
than four. -/
theorem home_share_cex :
    ctx0.pathExists (ctx0.normalize "/home/u/proj") = true
    ∧ commonpath2 (ctx0.normalize "/home/u/proj") ctx0.userHome = ctx0.userHome
    ∧ _get_home_share_mount_pairs ctx0 ["/home/u/proj"] =
        [("/home/u/proj", "/home/u/proj"), ("/home/u/proj", "/ch/proj")]
    ∧ _get_home_share_mount_pairs ctx0 ["/home/u/proj", "/home/u/proj"] =
        [("/home/u/proj", "/home/u/proj"), ("/home/u/proj", "/ch/proj")] := by
  decide

/-- Claim C6 (amended): a requested share that does not exist or whose
canonical form is not contained under the user's real home contributes no
pair at all; an accepted share whose pairs are not yet mounted contributes
exactly its identity pair and, when distinct from it, its tilde pair (so a
fresh accepted share contributes exactly two pairs, or one when the two
coincide, while a repeated occurrence contributes nothing new); and the
result never holds duplicate pairs. -/
theorem home_share_mount_pairs_corrected (ctx : HomeShareCtx) :
    (∀ shares : List String, (_get_home_share_mount_pairs ctx shares).Nodup)
    ∧ (∀ (st : MountPlan) (input : String),
        (ctx.pathExists (ctx.normalize input) = false ∨
          commonpath2 (ctx.normalize input) ctx.userHome ≠ ctx.userHome) →
        homeShareStep ctx st input = st)
    ∧ (∀ (st : MountPlan) (input : String),
        ctx.pathExists (ctx.normalize input) = true →
        commonpath2 (ctx.normalize input) ctx.userHome = ctx.userHome →
        (ctx.normalize input, ctx.normalize input) ∉ st.seen →
        (ctx.normalize input, tildeTarget ctx input) ∉ st.seen →
        (homeShareStep ctx st input).pairs = st.pairs ++
          (if tildeTarget ctx input = ctx.normalize input
            then [(ctx.normalize input, ctx.normalize input)]
            else [(ctx.normalize input, ctx.normalize input),
              (ctx.normalize input, tildeTarget ctx input)])) := by
  refine ⟨?_, ?_, ?_⟩
  · intro shares
    unfold _get_home_share_mount_pairs
    split
    · exact List.nodup_nil
    · exact (foldl_homeShareStep_inv ctx shares ⟨[], []⟩ List.nodup_nil
        (by intro q hq; cases hq)).1
  · intro st input h
    rcases h with h | h
    · simp [homeShareStep, h]
    · by_cases hex : ctx.pathExists (ctx.normalize input) = true
      · simp [homeShareStep, hex, h]
      · simp [homeShareStep, hex]
  · intro st input hex hcp hid htp
    have ht : (if relpath (ctx.normalize input) ctx.userHome = "." then ctx.imageHome
        else posixJoin ctx.imageHome
          (replaceChar (relpath (ctx.normalize input) ctx.userHome) '\\' '/'))
        = tildeTarget ctx input := by
      simp only [tildeTarget]
    simp only [homeShareStep, addPair, ht]
    by_cases hts : tildeTarget ctx input = ctx.normalize input
    · simp [hex, hcp, hid, hts]
    · have htp2 : (ctx.normalize input, tildeTarget ctx input) ∉
          st.seen ++ [(ctx.normalize input, ctx.normalize input)] := by
        intro hmem
        rcases List.mem_append.mp hmem with h | h
        · exact htp h
        · exact hts (congrArg Prod.snd (List.mem_singleton.mp h))
      simp [hex, hcp, hid, hts, htp2]

/-- Witness for claim C6: on a concrete context a share outside the home is
skipped, a fresh accepted share contributes its two pairs, and the result
for one share is duplicate-free. -/
theorem home_share_mount_pairs_corrected_witness :
    (_get_home_share_mount_pairs ctx0 ["/home/u/proj"]).Nodup
    ∧ homeShareStep ctx0 ⟨[], []⟩ "/etc/passwd" = ⟨[], []⟩
    ∧ (homeShareStep ctx0 ⟨[], []⟩ "/home/u/proj").pairs =
        MountPlan.pairs ⟨[], []⟩ ++
        (if tildeTarget ctx0 "/home/u/proj" = ctx0.normalize "/home/u/proj"
          then [(ctx0.normalize "/home/u/proj", ctx0.normalize "/home/u/proj")]
          else [(ctx0.normalize "/home/u/proj", ctx0.normalize "/home/u/proj"),
            (ctx0.normalize "/home/u/proj", tildeTarget ctx0 "/home/u/proj")]) :=
  ⟨(home_share_mount_pairs_corrected ctx0).1 ["/home/u/proj"],
   (home_share_mount_pairs_corrected ctx0).2.1 ⟨[], []⟩ "/etc/passwd"
     (.inr (by decide)),
   (home_share_mount_pairs_corrected ctx0).2.2 ⟨[], []⟩ "/home/u/proj"
     (by decide) (by decide) (by decide) (by decide)⟩

/-! Splitting and joining lemmas for the character-level primitives, used
for the label round-trip (claim C5) and the JSONL equivalence (claim C8). -/

theorem splitOnChar_not_mem {sep : Char} {l : List Char} (h : sep ∉ l) :
    splitOnChar sep l = [l] := by
  induction l with
  | nil => rfl
  | cons c cs ih =>
    have hc : ¬ c = sep := by
      intro he
      exact h (by rw [← he]; exact List.mem_cons_self c cs)
    have hcs : sep ∉ cs := fun hm => h (List.mem_cons_of_mem c hm)
    simp only [splitOnChar, if_neg hc, ih hcs]

theorem splitOnChar_append {sep : Char} {l1 l2 : List Char} (h : sep ∉ l1) :
    splitOnChar sep (l1 ++ sep :: l2) = l1 :: splitOnChar sep l2 := by
  induction l1 with
  | nil => simp [splitOnChar]
  | cons c cs ih =>
    have hc : ¬ c = sep := by
      intro he
      exact h (by rw [← he]; exact List.mem_cons_self c cs)
    have hcs : sep ∉ cs := fun hm => h (List.mem_cons_of_mem c hm)
    simp only [List.cons_append, splitOnChar, if_neg hc, List.append_eq, ih hcs]

theorem splitFirstOn_append {sep : Char} {k v : List Char} (h : sep ∉ k) :
    splitFirstOn sep (k ++ sep :: v) = some (k, v) := by
  induction k with
  | nil => simp [splitFirstOn]
  | cons c cs ih =>
    have hc : ¬ c = sep := by
      intro he
      exact h (by rw [← he]; exact List.mem_cons_self c cs)
    have hcs : sep ∉ cs := fun hm => h (List.mem_cons_of_mem c hm)
    simp only [List.cons_append, splitFirstOn, if_neg hc, List.append_eq, ih hcs]

theorem joinChar_cons {sep : Char} {l : List Char} {ls : List (List Char)}
    (h : ls ≠ []) : joinChar sep (l :: ls) = l ++ sep :: joinChar sep ls := by
  cases ls with
  | nil => cases h rfl
  | cons l2 ls2 => rfl

theorem splitOnChar_joinChar {sep : Char} {ls : List (List Char)}
    (hne : ls ≠ []) (h : ∀ l ∈ ls, sep ∉ l) :
    splitOnChar sep (joinChar sep ls) = ls := by
  induction ls with
  | nil => cases hne rfl
  | cons l ls ih =>
    cases ls with
    | nil => exact splitOnChar_not_mem (h l (List.mem_cons_self l []))
    | cons l2 ls2 =>
      rw [joinChar_cons (by simp), splitOnChar_append (h l (List.mem_cons_self _ _)),
        ih (by simp) (fun x hx => h x (List.mem_cons_of_mem _ hx))]

theorem joinChar_ne_nil {sep : Char} {ls : List (List Char)}
    (hne : ls ≠ []) (h : ∀ l ∈ ls, l ≠ []) : joinChar sep ls ≠ [] := by
  cases ls with
  | nil => cases hne rfl
  | cons l ls2 =>
    cases ls2 with
    | nil => exact h l (List.mem_cons_self l [])
    | cons l2 ls3 =>
      rw [joinChar_cons (by simp)]
      simp [List.append_eq_nil]

theorem joinChar_getLast?_mem {sep : Char} {ls : List (List Char)}
    (hne : ls ≠ []) (h : ∀ l ∈ ls, l ≠ []) :
    ∃ l ∈ ls, (joinChar sep ls).getLast? = l.getLast? := by
  induction ls with
  | nil => cases hne rfl
  | cons l ls2 ih =>
    cases ls2 with
    | nil => exact ⟨l, List.mem_cons_self l [], rfl⟩
    | cons l2 ls3 =>
      obtain ⟨x, hx, hxeq⟩ := ih (by simp) (fun y hy => h y (List.mem_cons_of_mem _ hy))
      refine ⟨x, List.mem_cons_of_mem _ hx, ?_⟩
      rw [joinChar_cons (by simp), List.getLast?_append]
      have hjn : joinChar sep (l2 :: ls3) ≠ [] :=
        joinChar_ne_nil (by simp) (fun y hy => h y (List.mem_cons_of_mem _ hy))
      have hsome := List.getLast?_eq_getLast (joinChar sep (l2 :: ls3)) hjn
      have hc : (sep :: joinChar sep (l2 :: ls3)).getLast? =
          (joinChar sep (l2 :: ls3)).getLast? := by
        have : sep :: joinChar sep (l2 :: ls3) = [sep] ++ joinChar sep (l2 :: ls3) := rfl
        rw [this, List.getLast?_append, hsome]
        rfl
      rw [hc, hxeq] at *
      rw [hsome] at *
      rfl

theorem trimC_joinChar {ls : List (List Char)} (hne : ls ≠ [])
    (h : ∀ l ∈ ls, trimC l = l ∧ l ≠ []) :
    trimC (joinChar '\n' ls) = joinChar '\n' ls := by
  apply trimC_eq_self
  · intro c hc
    cases ls with
    | nil => cases hne rfl
    | cons l ls2 =>
      have hl := h l (List.mem_cons_self _ _)
      cases ls2 with
      | nil => exact head_not_ws_of_trimC_self hl.1 hc
      | cons l2 ls3 =>
        rw [joinChar_cons (by simp), List.head?_append] at hc
        cases hl' : l with
        | nil => exact absurd hl' hl.2
        | cons x xs =>
          rw [hl'] at hc
          simp [Option.or_some] at hc
          rw [← hc]
          have := head_not_ws_of_trimC_self hl.1 (l := l) (c := x) (by rw [hl']; rfl)
          exact this
  · intro c hc
    obtain ⟨l, hl, heq⟩ := joinChar_getLast?_mem hne (fun y hy => (h y hy).2)
    rw [heq] at hc
    exact getLast_not_ws_of_trimC_self (h l hl).1 hc

/-! Claim C5: the mim-label predicate. -/

theorem eqMem_joinLabels {m : List (List Char × List Char)} (h : m ≠ []) :
    '=' ∈ joinLabelsChars m := by
  cases m with
  | nil => cases h rfl
  | cons p rest =>
    cases rest with
    | nil =>
      show '=' ∈ joinChar ',' [p.1 ++ '=' :: p.2]
      exact List.mem_append.mpr (.inr (List.mem_cons_self _ _))
    | cons q rest2 =>
      show '=' ∈ joinChar ',' ((p.1 ++ '=' :: p.2) ::
        (q :: rest2).map (fun r => r.1 ++ '=' :: r.2))
      rw [joinChar_cons (by simp)]
      exact List.mem_append.mpr (.inl (List.mem_append.mpr (.inr (List.mem_cons_self _ _))))

theorem parseLabelPairs_roundtrip {m : List (List Char × List Char)}
    (h : LabelsClean m) : parseLabelPairs (joinLabelsChars m) = m := by
  induction m with
  | nil => rfl
  | cons p rest ih =>
    obtain ⟨k, v⟩ := p
    have hcp := h (k, v) (List.mem_cons_self _ _)
    have hrest : LabelsClean rest := fun q hq => h q (List.mem_cons_of_mem _ hq)
    have hnc : ',' ∉ k ++ '=' :: v := by
      intro hm
      rcases List.mem_append.mp hm with h1 | h1
      · exact hcp.1 h1
      · rcases List.mem_cons.mp h1 with h2 | h2
        · exact absurd h2 (by decide)
        · exact hcp.2.1 h2
    have heqmem : '=' ∈ k ++ '=' :: v :=
      List.mem_append.mpr (.inr (List.mem_cons_self _ _))
    cases rest with
    | nil =>
      show parseLabelPairs (k ++ '=' :: v) = [(k, v)]
      unfold parseLabelPairs
      rw [if_neg (trimC_ne_nil_of_mem heqmem (by decide)), splitOnChar_not_mem hnc]
      unfold parsePairsList
      rw [splitFirstOn_append hcp.2.2.1]
      simp [hcp.2.2.2.1, hcp.2.2.2.2, parsePairsList]
    | cons q rest2 =>
      have hjoin : joinLabelsChars ((k, v) :: q :: rest2)
          = (k ++ '=' :: v) ++ ',' :: joinLabelsChars (q :: rest2) := by
        show joinChar ',' ((k ++ '=' :: v) ::
            (q :: rest2).map (fun r => r.1 ++ '=' :: r.2)) = _
        rw [joinChar_cons (by simp)]
        rfl
      rw [hjoin]
      have hbigmem : '=' ∈ (k ++ '=' :: v) ++ ',' :: joinLabelsChars (q :: rest2) :=
        List.mem_append.mpr (.inl heqmem)
      unfold parseLabelPairs
      rw [if_neg (trimC_ne_nil_of_mem hbigmem (by decide)), splitOnChar_append hnc]
      unfold parsePairsList
      rw [splitFirstOn_append hcp.2.2.1]
      have htne : trimC (joinLabelsChars (q :: rest2)) ≠ [] :=
        trimC_ne_nil_of_mem (eqMem_joinLabels (by simp)) (by decide)
      have ih2 : parsePairsList (splitOnChar ',' (joinLabelsChars (q :: rest2)))
          = q :: rest2 := by
        have hih := ih hrest
        unfold parseLabelPairs at hih
        rw [if_neg htne] at hih
        exact hih
      rw [ih2]
      simp [hcp.2.2.2.1, hcp.2.2.2.2]

/-- Claim C5: container_is_mim is true exactly when the parsed label
mapping of the found container maps "mim" to "1"; the docker comma-joined
string form of a clean label mapping parses identically to the podman
mapping form; and absent or null labels parse to the empty mapping, which
makes the predicate false. -/
theorem container_is_mim_label_spec :
    (∀ (cs : List Container) (name : String),
      container_is_mim cs name = true ↔
        ∃ c, _get_container_by_name cs name = some c ∧
          dictGet (_parse_container_labels c.labels) "mim" = some "1")
    ∧ (∀ m : List (List Char × List Char), LabelsClean m →
        _parse_container_labels (.str (⟨joinLabelsChars m⟩ : String)) =
        _parse_container_labels (.mapping (m.map
          (fun p => ((⟨p.1⟩ : String), (⟨p.2⟩ : String))))))
    ∧ _parse_container_labels .nullv = []
    ∧ (∀ (cs : List Container) (name : String) (c : Container),
        _get_container_by_name cs name = some c → c.labels = .nullv →
        container_is_mim cs name = false) := by
  refine ⟨?_, ?_, rfl, ?_⟩
  · intro cs name
    unfold container_is_mim
    cases hf : _get_container_by_name cs name with
    | none => simp
    | some c => simp [beq_iff_eq]
  · intro m hm
    show (parseLabelPairs (joinLabelsChars m)).map
        (fun p => ((⟨p.1⟩ : String), (⟨p.2⟩ : String))) = _
    rw [parseLabelPairs_roundtrip hm]
    rfl
  · intro cs name c hf hl
    unfold container_is_mim
    rw [hf]
    show (dictGet (_parse_container_labels c.labels) "mim" == some "1") = false
    rw [hl]
    rfl

/-- Witness for claim C5: a docker-reported label string yields a mim
container, and the string and mapping forms of a concrete clean label set
parse identically. -/
theorem container_is_mim_label_spec_witness :
    container_is_mim [⟨.list ["box"], some "running", .str "a=b,mim=1"⟩] "box" = true
    ∧ _parse_container_labels (.str (⟨joinLabelsChars
        [(['m', 'i', 'm'], ['1'])]⟩ : String)) =
      _parse_container_labels (.mapping ([(['m', 'i', 'm'], ['1'])].map
        (fun p => ((⟨p.1⟩ : String), (⟨p.2⟩ : String))))) :=
  ⟨(container_is_mim_label_spec.1 [⟨.list ["box"], some "running", .str "a=b,mim=1"⟩]
      "box").mpr ⟨⟨.list ["box"], some "running", .str "a=b,mim=1"⟩, rfl, rfl⟩,
   container_is_mim_label_spec.2.1 [(['m', 'i', 'm'], ['1'])]
     (by unfold LabelsClean; decide)⟩

/-! Claim C8: parse_container_json on array and JSONL inputs. -/

theorem parseJsonLines_ok (loads : String → Option JValue) :
    ∀ (ld : List (List Char)) (objs : List JValue), ld.length = objs.length →
    (∀ p ∈ ld.zip objs, loads (⟨p.1⟩ : String) = some p.2 ∧ trimC p.1 = p.1 ∧ p.1 ≠ []) →
    parseJsonLines loads ld = .ok objs := by
  intro ld
  induction ld with
  | nil =>
    intro objs hlen hp
    cases objs with
    | nil => rfl
    | cons v vs => cases hlen
  | cons l ls ih =>
    intro objs hlen hp
    cases objs with
    | nil => cases hlen
    | cons v vs =>
      have hl := hp (l, v) (by rw [List.zip_cons_cons]; exact List.mem_cons_self _ _)
      have hrest : ∀ p ∈ ls.zip vs,
          loads (⟨p.1⟩ : String) = some p.2 ∧ trimC p.1 = p.1 ∧ p.1 ≠ [] :=
        fun p hp2 => hp p (by rw [List.zip_cons_cons]; exact List.mem_cons_of_mem _ hp2)
      have hlen2 : ls.length = vs.length := by
        simpa using hlen
      simp only [parseJsonLines]
      rw [if_neg (by rw [hl.2.1]; exact hl.2.2), hl.1]
      show (parseJsonLines loads ls).map (fun rest => v :: rest) = .ok (v :: vs)
      rw [ih vs hlen2 hrest]
      rfl

/-- Claim C8: parse_container_json yields the same object list whether the
input is one JSON array document or the same objects serialized one per
line as JSONL (whole-document parse first, per-line fallback), and blank
input parses to the empty list. The parser json.loads is abstract, assumed
to parse the array document to the array, each line to its object, and to
reject the multi-line concatenation as one document. -/
theorem parse_container_json_equiv (loads : String → Option JValue)
    (objs : List JValue) (lines : List String) (arrDoc : String)
    (hlen : lines.length = objs.length)
    (hline1 : ∀ s ∈ lines, trimC s.data = s.data ∧ s.data ≠ [] ∧ '\n' ∉ s.data)
    (hline2 : ∀ p ∈ lines.zip objs,
      loads p.1 = some p.2 ∧ ∃ fields, p.2 = JValue.obj fields)
    (harr1 : trimC arrDoc.data ≠ [])
    (harr2 : loads arrDoc = some (.arr objs))
    (hjsonl : 2 ≤ lines.length →
      loads (⟨joinChar '\n' (lines.map (fun s => s.data))⟩ : String) = none) :
    parse_container_json loads arrDoc = .ok objs
    ∧ parse_container_json loads
        (⟨joinChar '\n' (lines.map (fun s => s.data))⟩ : String) = .ok objs
    ∧ (∀ s : String, trimC s.data = [] → parse_container_json loads s = .ok []) := by
  refine ⟨?_, ?_, ?_⟩
  · unfold parse_container_json
    rw [if_neg harr1, harr2]
  · cases lines with
    | nil =>
      cases objs with
      | nil => rfl
      | cons v vs => cases hlen
    | cons l1 rest =>
      cases rest with
      | nil =>
        cases objs with
        | nil => cases hlen
        | cons v vs =>
          have hvs : vs = [] := by
            cases vs with
            | nil => rfl
            | cons w ws => cases hlen
          subst hvs
          have hl1 := hline1 l1 (List.mem_cons_self _ _)
          have hl2 := hline2 (l1, v) (by
            rw [List.zip_cons_cons]
            exact List.mem_cons_self _ _)
          obtain ⟨fields, hv⟩ := hl2.2
          subst hv
          show parse_container_json loads (⟨l1.data⟩ : String) = .ok [.obj fields]
          unfold parse_container_json
          rw [if_neg (by
            show ¬ trimC (⟨l1.data⟩ : String).data = []
            rw [show (⟨l1.data⟩ : String).data = l1.data from rfl, hl1.1]
            exact hl1.2.1)]
          have hload : loads (⟨l1.data⟩ : String) = some (.obj fields) := hl2.1
          rw [hload]
      | cons l2 rest2 =>
        have hnone := hjsonl (by
          show 2 ≤ (l1 :: l2 :: rest2).length
          simp [List.length_cons])
        have hallne : ∀ x ∈ (l1 :: l2 :: rest2).map (fun s => s.data),
            trimC x = x ∧ x ≠ [] := by
          intro x hx
          obtain ⟨s, hs, rfl⟩ := List.mem_map.mp hx
          exact ⟨(hline1 s hs).1, (hline1 s hs).2.1⟩
        have hstable : trimC (joinChar '\n' ((l1 :: l2 :: rest2).map (fun s => s.data)))
            = joinChar '\n' ((l1 :: l2 :: rest2).map (fun s => s.data)) :=
          trimC_joinChar (by simp) hallne
        have hsplit : splitOnChar '\n'
            (joinChar '\n' ((l1 :: l2 :: rest2).map (fun s => s.data)))
            = (l1 :: l2 :: rest2).map (fun s => s.data) :=
          splitOnChar_joinChar (by simp) (by
            intro x hx
            obtain ⟨s, hs, rfl⟩ := List.mem_map.mp hx
            exact (hline1 s hs).2.2)
        have hne : trimC (⟨joinChar '\n'
            ((l1 :: l2 :: rest2).map (fun s => s.data))⟩ : String).data ≠ [] := by
          rw [show (⟨joinChar '\n' ((l1 :: l2 :: rest2).map (fun s => s.data))⟩ :
            String).data = joinChar '\n' ((l1 :: l2 :: rest2).map (fun s => s.data))
            from rfl, hstable]
          apply joinChar_ne_nil (by simp)
          intro x hx
          exact (hallne x hx).2
        unfold parse_container_json
        rw [if_neg hne, hnone]
        rw [show (⟨joinChar '\n' ((l1 :: l2 :: rest2).map (fun s => s.data))⟩ :
          String).data = joinChar '\n' ((l1 :: l2 :: rest2).map (fun s => s.data))
          from rfl, hstable, hsplit]
        apply parseJsonLines_ok loads ((l1 :: l2 :: rest2).map (fun s => s.data)) objs
          (by simpa using hlen)
        intro p hp
        rw [List.zip_map_left] at hp
        obtain ⟨q, hq, rfl⟩ := List.mem_map.mp hp
        have hq1 := hline1 q.1 (List.of_mem_zip hq).1
        have hq2 := hline2 q hq
        exact ⟨hq2.1, hq1.1, hq1.2.1⟩
  · intro s hs
    unfold parse_container_json
    rw [if_pos hs]

/-- Witness for claim C8: a two-object array document and its two-line
JSONL form parse to the same list under a concrete parser table. -/
theorem parse_container_json_equiv_witness :
    parse_container_json sampleLoads "arrAB" =
      .ok [.obj [("a", .str "1")], .obj [("b", .str "2")]]
    ∧ parse_container_json sampleLoads
        (⟨joinChar '\n' (["objA", "objB"].map (fun s => s.data))⟩ : String) =
      .ok [.obj [("a", .str "1")], .obj [("b", .str "2")]] :=
  have h := parse_container_json_equiv sampleLoads
    [.obj [("a", .str "1")], .obj [("b", .str "2")]] ["objA", "objB"] "arrAB"
    rfl
    (by intro s hs; rcases List.mem_cons.mp hs with h1 | h1
        · subst h1; exact ⟨by decide, by decide, by decide⟩
        · rcases List.mem_singleton.mp h1 with h2
          subst h2; exact ⟨by decide, by decide, by decide⟩)
    (by intro p hp
        rcases List.mem_cons.mp hp with h1 | h1
        · subst h1; exact ⟨rfl, ⟨_, rfl⟩⟩
        · rcases List.mem_singleton.mp h1 with h2
          subst h2; exact ⟨rfl, ⟨_, rfl⟩⟩)
    (by decide)
    rfl
    (fun _ => rfl)
  ⟨h.1, h.2.1⟩
